import Mathlib

/-!
In-Memory-DB: an HTTP front end over a Redis store.

A shallow embedding of `main.go`.  The program is a set of four HTTP handlers
(`setValue`, `getValue`, `qpush`, `qpop`) talking to a store through the
`ICache` interface, whose one implementation `redisCache` forwards to a
go-redis client.

Layers of the embedding:

* the Go standard-library functions the source calls (`strconv.ParseInt`,
  `strings.Split`, `time.Duration(..).Seconds()`), written after their
  documented behaviour;
* the go-redis client as an interface `RedisClient` of the six commands the
  source issues, each a state transformer returning a command result;
* `redisCache` (the methods `Set`, `Get`, `Push`, `Pop`) over any client;
* the handlers over any `ICache`;
* `Redis.client`, a model of one Redis server holding strings and lists.

State is passed explicitly: every operation takes the store state and returns
its result together with the next state.  Logging is left out.
-/

namespace InMemoryDB

/-! ## Go values -/

/-- A Go `error` as the source observes it: the sentinel `redis.Nil` (compared
with `==` in `redisCache.Get`) or any other error, with its message. -/
inductive GoError where
  | redisNil
  | other (msg : String)
deriving DecidableEq, Repr

/-- The method `err.Error()`; go-redis declares `Nil = RedisError("redis: nil")`. -/
def GoError.Error : GoError → String
  | .redisNil => "redis: nil"
  | .other msg => msg

/-- The two failure kinds of package strconv. -/
inductive NumError where
  | ErrSyntax
  | ErrRange
deriving DecidableEq, Repr

/-! ## strconv.ParseInt(s, 10, 64) -/

def maxUint64 : Nat := 2 ^ 64 - 1

/-- The loop of `strconv.ParseUint(s, 10, 64)` over the bytes of `s`, with the
accumulator `n`: a byte that is not a decimal digit is a syntax error, and a
value that leaves the 64-bit range stops the scan with a range error. -/
def ParseUint.loop : List Char → Nat → Nat × Option NumError
  | [], n => (n, none)
  | c :: cs, n =>
    if '0' ≤ c ∧ c ≤ '9' then
      if n ≥ maxUint64 / 10 + 1 then (maxUint64, some .ErrRange)
      else
        let n1 := n * 10 + (c.toNat - '0'.toNat)
        if n1 > maxUint64 then (maxUint64, some .ErrRange)
        else ParseUint.loop cs n1
    else (0, some .ErrSyntax)

/-- The call `strconv.ParseUint(s, 10, 64)`. -/
def ParseUint (s : List Char) : Nat × Option NumError :=
  if s = [] then (0, some .ErrSyntax) else ParseUint.loop s 0

/-- The call `strconv.ParseInt(s, 10, 64)` on the characters of `s`: an optional
sign, then `ParseUint`, then the signed range check with cutoff `2^63`. -/
def ParseInt.chars (s : List Char) : Int × Option NumError :=
  match s with
  | [] => (0, some .ErrSyntax)
  | c :: cs =>
    let neg := c = '-'
    let rest := if c = '+' ∨ c = '-' then cs else c :: cs
    match ParseUint rest with
    | (_, some .ErrSyntax) => (0, some .ErrSyntax)
    | (un, _) =>
      if ¬ neg ∧ un ≥ 2 ^ 63 then ((2 : Int) ^ 63 - 1, some .ErrRange)
      else if neg ∧ un > 2 ^ 63 then (-(2 : Int) ^ 63, some .ErrRange)
      else (if neg then -(un : Int) else (un : Int), none)

/-- The call `strconv.ParseInt(s, 10, 64)`. -/
def ParseInt (s : String) : Int × Option NumError :=
  ParseInt.chars s.data

/-! ## strings.Split(s, " ") -/

/-- The pieces of `s` between consecutive occurrences of `sep`
(`strings.Split` with a one-byte separator): always at least one piece. -/
def Split.chars (sep : Char) : List Char → List (List Char)
  | [] => [[]]
  | c :: cs =>
    if c = sep then [] :: Split.chars sep cs
    else
      match Split.chars sep cs with
      | [] => [[c]]
      | p :: ps => (c :: p) :: ps

/-- The call `strings.Split(value, " ")`. -/
def Split (value : String) : List String :=
  (Split.chars ' ' value.data).map String.mk

/-! ## time.Duration -/

/-- The constant `time.Second`, in nanoseconds. -/
def Second : Int := 1000000000

/-- The constant `time.Millisecond`, in nanoseconds. -/
def Millisecond : Int := 1000000

/-- The number of binary digits of `n`, by halving at most `fuel` times. -/
def bitLen.go : Nat → Nat → Nat
  | 0, _ => 0
  | fuel + 1, n => if n = 0 then 0 else 1 + bitLen.go fuel (n / 2)

/-- The number of binary digits of `n`. -/
def bitLen (n : Nat) : Nat := bitLen.go n n

/-- The integer nearest to `n / d`, a tie going to the even one. -/
def roundHalfEven (n d : Nat) : Nat :=
  if 2 * (n % d) > d ∨ (2 * (n % d) = d ∧ (n / d) % 2 = 1) then n / d + 1 else n / d

/-- The float64 nearest to the rational `num / den` (round to nearest, ties to
even, 53 significant bits), as a fraction whose denominator is a power of two.
With `fl` the exponent of the leading bit of `num / den`, the value is scaled
by `2 ^ (52 - fl)` into `[2^52, 2^53)`, rounded to an integer and scaled back.
Subnormals and overflow do not arise for the values a `Duration` gives. -/
def float64Round (num den : Nat) : Nat × Nat :=
  if num = 0 then (0, 1)
  else
    let e : Int := (bitLen num : Int) - (bitLen den : Int)
    let ge : Bool := if e ≥ 0 then den * 2 ^ e.toNat ≤ num else den ≤ num * 2 ^ (-e).toNat
    let fl : Int := if ge then e else e - 1
    let s : Int := 52 - fl
    if s ≥ 0 then (roundHalfEven (num * 2 ^ s.toNat) den, 2 ^ s.toNat)
    else (roundHalfEven num (den * 2 ^ (-s).toNat) * 2 ^ (-s).toNat, 1)

/-- The expression `time.Duration(time.Duration(expiry).Seconds())`.
`Duration(expiry)` is `expiry` nanoseconds.  The method `Seconds()` computes
`sec := d / Second`, `nsec := d % Second` and returns
`float64(sec) + float64(nsec)/1e9`: both conversions are exact, the quotient
`q` and then the sum are each rounded to the nearest float64.  The conversion
back to `Duration` drops the fraction.  Go's `/` and `%` truncate toward zero
and float64 arithmetic is symmetric in the sign, so a negative `expiry` gives
the negation of what its absolute value gives. -/
def secondsDuration (expiry : Int) : Int :=
  let sec := expiry.natAbs / 1000000000
  let nsec := expiry.natAbs % 1000000000
  let q := float64Round nsec 1000000000
  let sum := float64Round (sec * q.2 + q.1) q.2
  let t : Nat := sum.1 / sum.2
  if expiry < 0 then -(t : Int) else (t : Int)

/-! ## The go-redis client -/

/-- The result of one go-redis command (`StatusCmd`, `BoolCmd`, `StringCmd`,
`IntCmd`): its value and its error. -/
structure Cmd (α : Type) where
  val : α
  err : Option GoError
deriving DecidableEq, Repr

/-- The method `cmd.Val()`. -/
def Cmd.Val {α : Type} (cmd : Cmd α) : α := cmd.val

/-- The method `cmd.Err()`. -/
def Cmd.Err {α : Type} (cmd : Cmd α) : Option GoError := cmd.err

/-- The method `StringCmd.Bytes()`, `[]byte(cmd.val), cmd.err`.  A byte slice is
an `Option`: `none` is the nil slice, and a conversion from a string is never
nil. -/
def Cmd.Bytes (cmd : Cmd String) : Option String × Option GoError :=
  (some cmd.val, cmd.err)

/-- The six commands of `*redis.Client` the source issues, over a store state
`σ`.  Durations are in nanoseconds. -/
structure RedisClient (σ : Type) where
  SetNX : String → String → Int → σ → Cmd Bool × σ
  SetXX : String → String → Int → σ → Cmd Bool × σ
  Set : String → String → Int → σ → Cmd String × σ
  Get : String → σ → Cmd String × σ
  RPush : String → List String → σ → Cmd Int × σ
  RPop : String → σ → Cmd String × σ

/-- One command sent to the store. -/
inductive RedisCall where
  | SetNX (key value : String) (expiration : Int)
  | SetXX (key value : String) (expiration : Int)
  | Set (key value : String) (expiration : Int)
  | Get (key : String)
  | RPush (key : String) (values : List String)
  | RPop (key : String)
deriving DecidableEq, Repr

/-- A client that records every command it is sent, in order, and forwards it
to `client`. -/
def RedisClient.traced {σ : Type} (client : RedisClient σ) :
    RedisClient (σ × List RedisCall) where
  SetNX k v d st := ((client.SetNX k v d st.1).1, (client.SetNX k v d st.1).2, st.2 ++ [.SetNX k v d])
  SetXX k v d st := ((client.SetXX k v d st.1).1, (client.SetXX k v d st.1).2, st.2 ++ [.SetXX k v d])
  Set k v d st := ((client.Set k v d st.1).1, (client.Set k v d st.1).2, st.2 ++ [.Set k v d])
  Get k st := ((client.Get k st.1).1, (client.Get k st.1).2, st.2 ++ [.Get k])
  RPush k vs st := ((client.RPush k vs st.1).1, (client.RPush k vs st.1).2, st.2 ++ [.RPush k vs])
  RPop k st := ((client.RPop k st.1).1, (client.RPop k st.1).2, st.2 ++ [.RPop k])

/-! ## The store interface and its Redis implementation -/

/-- The struct `setInput`. -/
structure setInput where
  key : String
  value : String
  expiry : Int
  condition : String
deriving DecidableEq, Repr

/-- The interface `ICache`, over a store state `σ`.  `Get` returns a byte slice
(`none` is nil) and an error. -/
structure ICache (σ : Type) where
  Set : setInput → σ → Option GoError × σ
  Get : String → σ → (Option String × Option GoError) × σ
  Push : String → String → σ → σ
  Pop : String → σ → (String × Option GoError) × σ

namespace redisCache

variable {σ : Type}

/-- The method `redisCache.Set`: dispatch on the condition to one of three
client commands, each with the same converted expiry, and return its error. -/
def Set (client : RedisClient σ) (input : setInput) (st : σ) : Option GoError × σ :=
  if input.condition = "NX" then
    let r := client.SetNX input.key input.value (secondsDuration input.expiry) st
    (r.1.Err, r.2)
  else if input.condition = "XX" then
    let r := client.SetXX input.key input.value (secondsDuration input.expiry) st
    (r.1.Err, r.2)
  else
    let r := client.Set input.key input.value (secondsDuration input.expiry) st
    (r.1.Err, r.2)

/-- The method `redisCache.Get`: the store's `redis.Nil` becomes `(nil, nil)`;
everything else is passed on. -/
def Get (client : RedisClient σ) (key : String) (st : σ) :
    (Option String × Option GoError) × σ :=
  let r := client.Get key st
  let (result, err) := r.1.Bytes
  if err = some .redisNil then ((none, none), r.2)
  else ((result, err), r.2)

/-- The method `redisCache.Push`: split on single spaces, one `RPush` with all
the pieces, result dropped. -/
def Push (client : RedisClient σ) (key value : String) (st : σ) : σ :=
  let stringInputs := Split value
  let inputs := stringInputs.foldl (fun acc input => acc ++ [input]) []
  (client.RPush key inputs st).2

/-- The method `redisCache.Pop`: `return r.client.RPop(key).Val(),
r.client.RPop(key).Err()`.  Go evaluates the calls of a return statement left
to right, so the value is the first call's and the error the second call's. -/
def Pop (client : RedisClient σ) (key : String) (st : σ) :
    (String × Option GoError) × σ :=
  let r1 := client.RPop key st
  let v := r1.1.Val
  let r2 := client.RPop key r1.2
  let e := r2.1.Err
  ((v, e), r2.2)

end redisCache

/-- The value `&redisCache{client}` as an `ICache`. -/
def redisCache.toICache {σ : Type} (client : RedisClient σ) : ICache σ where
  Set := redisCache.Set client
  Get := redisCache.Get client
  Push := redisCache.Push client
  Pop := redisCache.Pop client

/-- One call through the `ICache` interface. -/
inductive CacheCall where
  | Set (input : setInput)
  | Get (key : String)
  | Push (key value : String)
  | Pop (key : String)
deriving DecidableEq, Repr

/-- A cache that records every call made through the interface, in order, and
forwards it to `cache`. -/
def ICache.traced {σ : Type} (cache : ICache σ) : ICache (σ × List CacheCall) where
  Set input st := ((cache.Set input st.1).1, (cache.Set input st.1).2, st.2 ++ [.Set input])
  Get key st := ((cache.Get key st.1).1, (cache.Get key st.1).2, st.2 ++ [.Get key])
  Push key value st := (cache.Push key value st.1, st.2 ++ [.Push key value])
  Pop key st := ((cache.Pop key st.1).1, (cache.Pop key st.1).2, st.2 ++ [.Pop key])

/-! ## The HTTP handlers -/

def INVALID_REQUEST : String := "invalid command"
def TRY_AGAIN : String := "try again"
def SUCCESSFUL : String := "command successfully executed"

/-- An incoming POST request as the handlers read it: the error of
`req.ParseForm()` and the form fields. -/
structure Request where
  ParseForm : Option GoError
  Form : List (String × String)
deriving DecidableEq, Repr

/-- The method `req.FormValue(name)`: the first value of the field, or the empty
string when the field is absent. -/
def Request.FormValue (req : Request) (name : String) : String :=
  match req.Form.find? (fun kv => kv.1 = name) with
  | some kv => kv.2
  | none => ""

/-- A JSON response `c.JSON(status, gin.H)` whose object has the one member
`name: value`. -/
structure Response where
  status : Nat
  name : String
  value : String
deriving DecidableEq, Repr

def StatusOK : Nat := 200
def StatusBadRequest : Nat := 400
def StatusInternalServerError : Nat := 500

variable {σ : Type}

/-- The handler `setValue` (POST /set). -/
def setValue (myCache : ICache σ) (req : Request) (st : σ) : Response × σ :=
  if req.ParseForm ≠ none then
    (⟨StatusInternalServerError, "err", TRY_AGAIN⟩, st)
  else
    let parsed : Int × Option NumError :=
      if req.FormValue "expiry" = "" then (0, none)
      else ParseInt (req.FormValue "expiry")
    let tim := parsed.1
    let err := parsed.2
    if err ≠ none ∨ tim < 0 then
      (⟨StatusBadRequest, "err", INVALID_REQUEST⟩, st)
    else
      let r := myCache.Set
        { key := req.FormValue "key"
          value := req.FormValue "value"
          expiry := tim
          condition := req.FormValue "condition" } st
      if r.1 ≠ none then
        (⟨StatusInternalServerError, "err", TRY_AGAIN⟩, r.2)
      else
        (⟨StatusOK, "value", SUCCESSFUL⟩, r.2)

/-- The handler `getValue` (POST /get). -/
def getValue (myCache : ICache σ) (req : Request) (st : σ) : Response × σ :=
  if req.ParseForm ≠ none then
    (⟨StatusInternalServerError, "err", TRY_AGAIN⟩, st)
  else
    let key := req.FormValue "key"
    let r := myCache.Get key st
    let value := r.1.1
    let err := r.1.2
    if err ≠ none then
      (⟨StatusInternalServerError, "err", TRY_AGAIN⟩, r.2)
    else
      match value with
      | none => (⟨StatusBadRequest, "err", "Key not found"⟩, r.2)
      | some b => (⟨StatusOK, "value", b⟩, r.2)

/-- The handler `qpush` (POST /qpush). -/
def qpush (myCache : ICache σ) (req : Request) (st : σ) : Response × σ :=
  if req.ParseForm ≠ none then
    (⟨StatusInternalServerError, "err", TRY_AGAIN⟩, st)
  else
    let key := req.FormValue "key"
    let st1 := myCache.Push key (req.FormValue "value") st
    (⟨StatusOK, "value", SUCCESSFUL⟩, st1)

/-- The handler `qpop` (POST /qpop). -/
def qpop (myCache : ICache σ) (req : Request) (st : σ) : Response × σ :=
  if req.ParseForm ≠ none then
    (⟨StatusInternalServerError, "err", TRY_AGAIN⟩, st)
  else
    let key := req.FormValue "key"
    let r := myCache.Pop key st
    let result := r.1.1
    let err := r.1.2
    match err with
    | some e => (⟨StatusBadRequest, "err", e.Error⟩, r.2)
    | none => (⟨StatusOK, "value", result⟩, r.2)

/-! ## A Redis server holding strings and lists

The store behind the client, after the documented behaviour of the commands
SET, SETNX, GET, RPUSH and RPOP and of the go-redis methods that send them
(package `github.com/go-redis/redis`, version 6).  No time passes between two
commands, so a key with a time to live is still there at the next command. -/

namespace Redis

/-- What a key holds: a string with the time to live it was written with, in
milliseconds (`none`: no expiry), or a list, head first. -/
inductive Entry where
  | str (val : String) (ttl : Option Int)
  | list (elems : List String)
deriving DecidableEq, Repr

/-- The keyspace. -/
abbrev Store : Type := String → Option Entry

/-- The keyspace with no key. -/
def Store.empty : Store := fun _ => none

/-- Bind `key` to `e` (`none` deletes the key). -/
def Store.update (st : Store) (key : String) (e : Option Entry) : Store :=
  fun k => if k = key then e else st k

/-- The list held at `key`; a key that is absent is the empty list. -/
def Store.queue (st : Store) (key : String) : List String :=
  match st key with
  | some (.list xs) => xs
  | _ => []

def WRONGTYPE : GoError :=
  .other "WRONGTYPE Operation against a key holding the wrong kind of value"

def invalidExpire : GoError :=
  .other "ERR invalid expire time in set"

def wrongArity : GoError :=
  .other "ERR wrong number of arguments for \x27rpush\x27 command"

/-- The go-redis function `usePrecise`: whether the duration is sent in
milliseconds (`PX`) rather than whole seconds (`EX`). -/
def usePrecise (dur : Int) : Bool :=
  decide (dur < Second) || decide (Int.tmod dur Second ≠ 0)

/-- The go-redis function `formatMs`, `int64(dur / time.Millisecond)`. -/
def formatMs (dur : Int) : Int := Int.tdiv dur Millisecond

/-- The go-redis function `formatSec`, `int64(dur / time.Second)`. -/
def formatSec (dur : Int) : Int := Int.tdiv dur Second

/-- The time to live, in milliseconds, that the expiry option of the command
asks for: `PX formatMs(dur)` or `EX formatSec(dur)`.  A duration below one
millisecond is sent as `PX 0`; the server refuses a value that is not
positive. -/
def expireMillis (dur : Int) : Int :=
  if usePrecise dur then formatMs dur else formatSec dur * 1000

/-- The method `client.Set`: `SET key value`, with the expiry option only when
`expiration > 0`.  An expiry option that is not positive is refused and
nothing is written; otherwise whatever the key held is overwritten. -/
def Set (key value : String) (expiration : Int) (st : Store) : Cmd String × Store :=
  if expiration > 0 then
    if expireMillis expiration ≤ 0 then (⟨"", some invalidExpire⟩, st)
    else (⟨"OK", none⟩, st.update key (some (.str value (some (expireMillis expiration)))))
  else (⟨"OK", none⟩, st.update key (some (.str value none)))

/-- The method `client.SetNX`: `SETNX key value` when `expiration` is 0, else
`SET key value PX|EX .. NX`, refused for an expiry option that is not
positive.  Writes only when the key is absent; a key that is present is no
error. -/
def SetNX (key value : String) (expiration : Int) (st : Store) : Cmd Bool × Store :=
  if expiration = 0 then
    match st key with
    | none => (⟨true, none⟩, st.update key (some (.str value none)))
    | some _ => (⟨false, none⟩, st)
  else if expireMillis expiration ≤ 0 then (⟨false, some invalidExpire⟩, st)
  else
    match st key with
    | none =>
      (⟨true, none⟩, st.update key (some (.str value (some (expireMillis expiration)))))
    | some _ => (⟨false, none⟩, st)

/-- The method `client.SetXX`: `SET key value XX` when `expiration` is 0, else
`SET key value PX|EX .. XX`, refused for an expiry option that is not
positive.  Writes only when the key is present, whatever it holds; a key that
is absent is no error. -/
def SetXX (key value : String) (expiration : Int) (st : Store) : Cmd Bool × Store :=
  if expiration = 0 then
    match st key with
    | none => (⟨false, none⟩, st)
    | some _ => (⟨true, none⟩, st.update key (some (.str value none)))
  else if expireMillis expiration ≤ 0 then (⟨false, some invalidExpire⟩, st)
  else
    match st key with
    | none => (⟨false, none⟩, st)
    | some _ =>
      (⟨true, none⟩, st.update key (some (.str value (some (expireMillis expiration)))))

/-- The method `client.Get`: `GET key`.  An absent key is the nil reply
(`redis.Nil`), a list is a type error, and the store is never changed. -/
def Get (key : String) (st : Store) : Cmd String × Store :=
  match st key with
  | none => (⟨"", some .redisNil⟩, st)
  | some (.str v _) => (⟨v, none⟩, st)
  | some (.list _) => (⟨"", some WRONGTYPE⟩, st)

/-- The method `client.RPush`: `RPUSH key v1 .. vn` appends the values, in
order, at the tail of the list, creating it when the key is absent, and
replies with the new length. -/
def RPush (key : String) (values : List String) (st : Store) : Cmd Int × Store :=
  if values = [] then (⟨0, some wrongArity⟩, st)
  else
    match st key with
    | none => (⟨values.length, none⟩, st.update key (some (.list values)))
    | some (.list xs) =>
      (⟨(xs ++ values).length, none⟩, st.update key (some (.list (xs ++ values))))
    | some (.str _ _) => (⟨0, some WRONGTYPE⟩, st)

/-- The method `client.RPop`: `RPOP key` removes and returns the last element
of the list; a list left empty is deleted; an absent key is the nil reply
(`redis.Nil`) and changes nothing. -/
def RPop (key : String) (st : Store) : Cmd String × Store :=
  match st key with
  | none => (⟨"", some .redisNil⟩, st)
  | some (.list xs) =>
    match xs.getLast? with
    | none => (⟨"", some .redisNil⟩, st)
    | some x =>
      (⟨x, none⟩,
        st.update key (if xs.dropLast = [] then none else some (.list xs.dropLast)))
  | some (.str _ _) => (⟨"", some WRONGTYPE⟩, st)

/-- The go-redis client connected to this server. -/
def client : RedisClient Store where
  SetNX := SetNX
  SetXX := SetXX
  Set := Set
  Get := Get
  RPush := RPush
  RPop := RPop

end Redis

/-- The value `myCache` after `InitRedis()`. -/
def myCache : ICache Redis.Store := redisCache.toICache Redis.client

/-! ## Definitions used to state the properties -/

/-- A request whose body parsed and whose only field is `key`. -/
def keyRequest (key : String) : Request :=
  { ParseForm := none, Form := [("key", key)] }

/-- A request whose body parsed, with fields `key` and `value`. -/
def pushRequest (key value : String) : Request :=
  { ParseForm := none, Form := [("key", key), ("value", value)] }

/-- A request whose body parsed, with the four fields of /set. -/
def setRequest (key value expiry condition : String) : Request :=
  { ParseForm := none
    Form := [("key", key), ("value", value), ("expiry", expiry), ("condition", condition)] }

/-- The number a string of decimal digits denotes. -/
def decimalValue (ds : List Char) : Nat :=
  ds.foldl (fun n c => n * 10 + (c.toNat - '0'.toNat)) 0

/-- The characters of `s` after an optional leading sign. -/
def unsignedPart (s : List Char) : List Char :=
  match s with
  | [] => []
  | c :: cs => if c = '+' ∨ c = '-' then cs else c :: cs

/-- A base-10 signed 64-bit integer literal: an optional sign `+` or `-`, then
one or more decimal digits, denoting a value from `-2^63` to `2^63 - 1`. -/
def isInt64Literal (s : String) : Prop :=
  unsignedPart s.data ≠ [] ∧
  (∀ c ∈ unsignedPart s.data, '0' ≤ c ∧ c ≤ '9') ∧
  (if s.data.head? = some '-' then decimalValue (unsignedPart s.data) ≤ 2 ^ 63
   else decimalValue (unsignedPart s.data) < 2 ^ 63)

instance (s : String) : Decidable (isInt64Literal s) := by
  unfold isInt64Literal
  infer_instance

/-- The value a base-10 signed integer literal denotes. -/
def literalValue (s : String) : Int :=
  if s.data.head? = some '-' then -(decimalValue (unsignedPart s.data) : Int)
  else (decimalValue (unsignedPart s.data) : Int)

/-- The expiry a set request asks for: 0 for an absent or empty field, else the
value of the literal. -/
def requestExpiry (req : Request) : Int :=
  if req.FormValue "expiry" = "" then 0 else literalValue (req.FormValue "expiry")

/-- Whitespace as a form value can carry it: space, tab, newline, carriage
return, vertical tab, form feed. -/
def isWhitespace (c : Char) : Bool :=
  c = ' ' || c = '\t' || c = '\n' || c = '\r' || c.toNat = 11 || c.toNat = 12

/-- The maximal runs of characters that are not whitespace, in order, with
`cur` the run being read. -/
def whitespaceRuns.go : List Char → List Char → List (List Char)
  | [], cur => if cur = [] then [] else [cur]
  | c :: cs, cur =>
    if isWhitespace c then
      (if cur = [] then whitespaceRuns.go cs [] else cur :: whitespaceRuns.go cs [])
    else whitespaceRuns.go cs (cur ++ [c])

/-- The maximal whitespace-free runs of `value`, in order: what a split on
whitespace yields. -/
def whitespaceRuns (value : String) : List String :=
  (whitespaceRuns.go value.data []).map String.mk

end InMemoryDB

/-! ## Lemmas on the library functions -/

namespace InMemoryDB

open Redis

theorem Split.chars_ne_nil (sep : Char) (s : List Char) : Split.chars sep s ≠ [] := by
  cases s with
  | nil => simp [Split.chars]
  | cons c cs =>
    simp only [Split.chars]
    split
    · simp
    · split <;> simp

theorem Split.chars_length (sep : Char) (s : List Char) :
    (Split.chars sep s).length = s.count sep + 1 := by
  induction s with
  | nil => simp [Split.chars]
  | cons c cs ih =>
    simp only [Split.chars]
    by_cases h : c = sep
    · subst h
      simp [ih]
    · have hne : Split.chars sep cs ≠ [] := Split.chars_ne_nil sep cs
      rw [if_neg h]
      cases hs : Split.chars sep cs with
      | nil => exact absurd hs hne
      | cons p ps =>
        rw [hs] at ih
        simp only [List.length_cons] at ih ⊢
        rw [List.count_cons_of_ne (Ne.symm h)]
        exact ih

theorem Split.chars_no_sep (sep : Char) (s : List Char) :
    ∀ p ∈ Split.chars sep s, sep ∉ p := by
  induction s with
  | nil => simp [Split.chars]
  | cons c cs ih =>
    simp only [Split.chars]
    by_cases h : c = sep
    · subst h
      intro p hp
      simp only [if_true, List.mem_cons] at hp
      rcases hp with rfl | hp
      · simp
      · exact ih p hp
    · rw [if_neg h]
      cases hs : Split.chars sep cs with
      | nil => exact absurd hs (Split.chars_ne_nil sep cs)
      | cons q qs =>
        rw [hs] at ih
        intro p hp
        simp only [List.mem_cons] at hp
        rcases hp with rfl | hp
        · intro hmem
          simp only [List.mem_cons] at hmem
          rcases hmem with rfl | hmem
          · exact h rfl
          · exact ih q (by simp) hmem
        · exact ih p (by simp [hp])

theorem Split.chars_intercalate (sep : Char) (s : List Char) :
    List.intercalate [sep] (Split.chars sep s) = s := by
  induction s with
  | nil => simp [Split.chars, List.intercalate]
  | cons c cs ih =>
    simp only [Split.chars]
    by_cases h : c = sep
    · subst h
      rw [if_pos rfl]
      cases hs : Split.chars c cs with
      | nil => exact absurd hs (Split.chars_ne_nil c cs)
      | cons q qs =>
        rw [hs] at ih
        simp only [List.intercalate] at ih ⊢
        simp [ih]
    · rw [if_neg h]
      cases hs : Split.chars sep cs with
      | nil => exact absurd hs (Split.chars_ne_nil sep cs)
      | cons q qs =>
        rw [hs] at ih
        simp only [List.intercalate] at ih ⊢
        cases qs with
        | nil => simpa using ih
        | cons r rs =>
          simp only [List.intersperse_cons₂, List.flatten_cons, List.cons_append] at ih ⊢
          rw [ih]

theorem String.intercalate_go_data (acc sep : String) (l : List String) :
    (String.intercalate.go acc sep l).data =
      acc.data ++ (l.map (fun a => sep.data ++ a.data)).flatten := by
  induction l generalizing acc with
  | nil => simp [String.intercalate.go]
  | cons a as ih => simp [String.intercalate.go, ih, String.data_append]

theorem List.intercalate_cons_eq {α : Type} (sep x : List α) (xs : List (List α)) :
    List.intercalate sep (x :: xs) = x ++ (xs.map (fun a => sep ++ a)).flatten := by
  induction xs generalizing x with
  | nil => simp [List.intercalate]
  | cons y ys ih =>
    have h := ih y
    simp only [List.intercalate] at h ⊢
    simp [h]

theorem Split_ne_nil (value : String) : Split value ≠ [] := by
  simp [Split, Split.chars_ne_nil]

theorem Split_length (value : String) :
    (Split value).length = value.data.count ' ' + 1 := by
  simp [Split, Split.chars_length]

theorem Split_no_space (value : String) : ∀ p ∈ Split value, ' ' ∉ p.data := by
  intro p hp
  simp only [Split, List.mem_map] at hp
  obtain ⟨q, hq, rfl⟩ := hp
  exact Split.chars_no_sep ' ' value.data q hq

theorem Split_join (value : String) : String.intercalate " " (Split value) = value := by
  apply String.ext
  have h := Split.chars_intercalate ' ' value.data
  unfold Split
  cases hs : Split.chars ' ' value.data with
  | nil => exact absurd hs (Split.chars_ne_nil _ _)
  | cons q qs =>
    rw [hs, List.intercalate_cons_eq] at h
    simp only [List.map_cons, String.intercalate, String.intercalate_go_data, List.map_map]
    rw [← h]
    rfl

theorem whitespaceRuns.go_eq_split (s : List Char)
    (hws : ∀ c ∈ s, isWhitespace c = true → c = ' ') :
    ∀ (cur p : List Char) (ps : List (List Char)), Split.chars ' ' s = p :: ps →
      cur ++ p ≠ [] → (∀ q ∈ ps, q ≠ []) → whitespaceRuns.go s cur = (cur ++ p) :: ps := by
  induction s with
  | nil =>
    intro cur p ps hsp hcur _
    simp only [Split.chars, List.cons.injEq] at hsp
    obtain ⟨rfl, rfl⟩ := hsp
    simp only [List.append_nil] at hcur
    simp [whitespaceRuns.go, hcur]
  | cons c cs ih =>
    intro cur p ps hsp hcur hps
    have hws' : ∀ c ∈ cs, isWhitespace c = true → c = ' ' :=
      fun x hx => hws x (by simp [hx])
    by_cases hc : c = ' '
    · subst hc
      simp only [Split.chars, if_true, List.cons.injEq] at hsp
      obtain ⟨rfl, rfl⟩ := hsp
      simp only [List.append_nil] at hcur
      cases hs : Split.chars ' ' cs with
      | nil => exact absurd hs (Split.chars_ne_nil _ _)
      | cons q qs =>
        rw [hs] at hps
        have hq : q ≠ [] := hps q (by simp)
        have hqs : ∀ r ∈ qs, r ≠ [] := fun r hr => hps r (by simp [hr])
        have h := ih hws' [] q qs hs (by simpa using hq) hqs
        have hw : isWhitespace ' ' = true := by decide
        simp only [whitespaceRuns.go, hw, if_true, if_neg hcur, h, List.nil_append,
          List.append_nil]
    · have hw : isWhitespace c = false := by
        cases hb : isWhitespace c with
        | false => rfl
        | true => exact absurd (hws c (by simp) hb) hc
      simp only [Split.chars, if_neg hc] at hsp
      cases hs : Split.chars ' ' cs with
      | nil => exact absurd hs (Split.chars_ne_nil _ _)
      | cons q qs =>
        rw [hs] at hsp
        simp only [List.cons.injEq] at hsp
        obtain ⟨rfl, rfl⟩ := hsp
        have h := ih hws' (cur ++ [c]) q qs hs (by simp) hps
        simp only [whitespaceRuns.go, hw, Bool.false_eq_true, if_false, h, List.append_assoc,
          List.singleton_append]

theorem Split_eq_whitespaceRuns (value : String)
    (hws : ∀ c ∈ value.data, isWhitespace c = true → c = ' ')
    (hne : ∀ p ∈ Split value, p ≠ "") : Split value = whitespaceRuns value := by
  unfold Split whitespaceRuns
  cases hs : Split.chars ' ' value.data with
  | nil => exact absurd hs (Split.chars_ne_nil _ _)
  | cons q qs =>
    have hall : ∀ r ∈ q :: qs, r ≠ [] := by
      intro r hr hnil
      subst hnil
      refine hne "" ?_ rfl
      simp only [Split, hs, List.mem_map]
      exact ⟨[], hr, rfl⟩
    have h := whitespaceRuns.go_eq_split value.data hws [] q qs hs
      (by simpa using hall q (by simp)) (fun r hr => hall r (by simp [hr]))
    rw [h]
    simp

theorem Push_inputs (l : List String) :
    l.foldl (fun acc input => acc ++ [input]) [] = l := by
  have h : ∀ (xs acc : List String),
      xs.foldl (fun acc input => acc ++ [input]) acc = acc ++ xs := by
    intro xs
    induction xs with
    | nil => simp
    | cons x xs ih => intro acc; simp [ih]
  simpa using h l []

/-! ### strconv.ParseInt accepts exactly the 64-bit literals -/

theorem ParseUint.foldl_ge (ds : List Char) (n : Nat) :
    n ≤ ds.foldl (fun n c => n * 10 + (c.toNat - '0'.toNat)) n := by
  induction ds generalizing n with
  | nil => simp
  | cons c cs ih =>
    simp only [List.foldl_cons]
    exact le_trans (by omega) (ih _)

theorem ParseUint.loop_of_digits (ds : List Char) (n : Nat)
    (hd : ∀ c ∈ ds, '0' ≤ c ∧ c ≤ '9')
    (hv : ds.foldl (fun n c => n * 10 + (c.toNat - '0'.toNat)) n ≤ maxUint64) :
    ParseUint.loop ds n = (ds.foldl (fun n c => n * 10 + (c.toNat - '0'.toNat)) n, none) := by
  induction ds generalizing n with
  | nil => simp [ParseUint.loop]
  | cons c cs ih =>
    simp only [List.foldl_cons] at hv ⊢
    have hge := ParseUint.foldl_ge cs (n * 10 + (c.toNat - '0'.toNat))
    have hc := hd c (by simp)
    have h1 : n * 10 + (c.toNat - '0'.toNat) ≤ maxUint64 := le_trans hge hv
    have h2 : ¬ n ≥ maxUint64 / 10 + 1 := by
      simp only [maxUint64] at h1 ⊢
      omega
    simp only [ParseUint.loop, hc, and_self, if_true, h2, if_false, not_lt.mpr h1]
    exact ih _ (fun c hc => hd c (by simp [hc])) hv

theorem ParseUint.loop_ok (ds : List Char) (n : Nat) (hn : n ≤ maxUint64)
    (h : (ParseUint.loop ds n).2 = none) :
    (∀ c ∈ ds, '0' ≤ c ∧ c ≤ '9') ∧
    (ParseUint.loop ds n).1 = ds.foldl (fun n c => n * 10 + (c.toNat - '0'.toNat)) n ∧
    ds.foldl (fun n c => n * 10 + (c.toNat - '0'.toNat)) n ≤ maxUint64 := by
  induction ds generalizing n with
  | nil => simpa [ParseUint.loop] using hn
  | cons c cs ih =>
    simp only [ParseUint.loop] at h ⊢
    by_cases hc : '0' ≤ c ∧ c ≤ '9'
    · rw [if_pos hc] at h ⊢
      by_cases h2 : n ≥ maxUint64 / 10 + 1
      · rw [if_pos h2] at h
        simp at h
      · rw [if_neg h2] at h ⊢
        by_cases h1 : n * 10 + (c.toNat - '0'.toNat) > maxUint64
        · simp only [h1, if_true] at h
          simp at h
        · simp only [h1, if_false] at h ⊢
          obtain ⟨a, b, c'⟩ := ih _ (not_lt.mp h1) h
          refine ⟨?_, ?_, ?_⟩
          · intro x hx
            simp only [List.mem_cons] at hx
            rcases hx with rfl | hx
            · exact hc
            · exact a x hx
          · simpa using b
          · simpa using c'
    · rw [if_neg hc] at h
      simp at h

theorem ParseUint.loop_range (ds : List Char) (n : Nat)
    (h : (ParseUint.loop ds n).2 = some .ErrRange) : (ParseUint.loop ds n).1 = maxUint64 := by
  induction ds generalizing n with
  | nil => simp [ParseUint.loop] at h
  | cons c cs ih =>
    simp only [ParseUint.loop] at h ⊢
    by_cases hc : '0' ≤ c ∧ c ≤ '9'
    · rw [if_pos hc] at h ⊢
      by_cases h2 : n ≥ maxUint64 / 10 + 1
      · rw [if_pos h2]
      · rw [if_neg h2] at h ⊢
        by_cases h1 : n * 10 + (c.toNat - '0'.toNat) > maxUint64
        · simp only [h1, if_true]
        · simp only [h1, if_false] at h ⊢
          exact ih _ h
    · rw [if_neg hc] at h
      simp at h

theorem ParseUint_ok_iff (ds : List Char) :
    (ParseUint ds).2 = none ↔
      ds ≠ [] ∧ (∀ c ∈ ds, '0' ≤ c ∧ c ≤ '9') ∧ decimalValue ds ≤ maxUint64 := by
  unfold ParseUint decimalValue
  by_cases hds : ds = []
  · simp [hds]
  · rw [if_neg hds]
    constructor
    · intro h
      obtain ⟨a, _, c⟩ := ParseUint.loop_ok ds 0 (by simp [maxUint64]) h
      exact ⟨hds, a, c⟩
    · rintro ⟨_, a, c⟩
      rw [ParseUint.loop_of_digits ds 0 a c]

theorem ParseUint_val (ds : List Char) (h : (ParseUint ds).2 = none) :
    (ParseUint ds).1 = decimalValue ds := by
  have h3 := (ParseUint_ok_iff ds).mp h
  unfold ParseUint decimalValue at *
  rw [if_neg h3.1] at h ⊢
  exact (ParseUint.loop_ok ds 0 (by simp [maxUint64]) h).2.1

theorem ParseUint_range (ds : List Char) (h : (ParseUint ds).2 = some .ErrRange) :
    (ParseUint ds).1 = maxUint64 := by
  unfold ParseUint at *
  by_cases hds : ds = []
  · simp [hds] at h
  · rw [if_neg hds] at h ⊢
    exact ParseUint.loop_range ds 0 h

theorem ParseInt.chars_spec (c : Char) (cs : List Char) :
    ((ParseInt.chars (c :: cs)).2 = none ↔
      (ParseUint (unsignedPart (c :: cs))).2 = none ∧
      (if c = '-' then (ParseUint (unsignedPart (c :: cs))).1 ≤ 2 ^ 63
       else (ParseUint (unsignedPart (c :: cs))).1 < 2 ^ 63)) ∧
    ((ParseInt.chars (c :: cs)).2 = none →
      (ParseInt.chars (c :: cs)).1 =
        if c = '-' then -((ParseUint (unsignedPart (c :: cs))).1 : Int)
        else ((ParseUint (unsignedPart (c :: cs))).1 : Int)) := by
  have hr := ParseUint_range (unsignedPart (c :: cs))
  simp only [ParseInt.chars, unsignedPart] at hr ⊢
  rcases hu : ParseUint (if c = '+' ∨ c = '-' then cs else c :: cs) with ⟨un, e⟩
  rw [hu] at hr
  cases e with
  | none =>
    by_cases hneg : c = '-'
    · by_cases h1 : 9223372036854775808 < un
      · simp [hneg, h1]
      · simp [hneg, h1, not_lt.mp h1]
    · by_cases h1 : 9223372036854775808 ≤ un
      · simp [hneg, h1]
      · simp [hneg, h1, not_le.mp h1]
  | some e =>
    cases e with
    | ErrSyntax => simp
    | ErrRange =>
      have hun : un = maxUint64 := hr rfl
      subst hun
      by_cases hneg : c = '-'
      · simp [hneg, maxUint64]
      · simp [hneg, maxUint64]

theorem ParseInt_ok_iff (s : String) : (ParseInt s).2 = none ↔ isInt64Literal s := by
  unfold ParseInt isInt64Literal
  cases hs : s.data with
  | nil => simp [ParseInt.chars, unsignedPart]
  | cons c cs =>
    rw [(ParseInt.chars_spec c cs).1, ParseUint_ok_iff]
    have h63 : (2 : Nat) ^ 63 ≤ maxUint64 := by simp [maxUint64]
    constructor
    · rintro ⟨⟨h1, h2, h3⟩, h4⟩
      rw [ParseUint_val _ ((ParseUint_ok_iff _).mpr ⟨h1, h2, h3⟩)] at h4
      refine ⟨h1, h2, ?_⟩
      simpa using h4
    · rintro ⟨h1, h2, h3⟩
      have h3' : if c = '-' then decimalValue (unsignedPart (c :: cs)) ≤ 2 ^ 63
          else decimalValue (unsignedPart (c :: cs)) < 2 ^ 63 := by simpa using h3
      have hle : decimalValue (unsignedPart (c :: cs)) ≤ maxUint64 := by
        split at h3' <;> omega
      refine ⟨⟨h1, h2, hle⟩, ?_⟩
      rw [ParseUint_val _ ((ParseUint_ok_iff _).mpr ⟨h1, h2, hle⟩)]
      exact h3'

theorem ParseInt_val (s : String) (h : (ParseInt s).2 = none) :
    (ParseInt s).1 = literalValue s := by
  have hl := (ParseInt_ok_iff s).mp h
  unfold ParseInt literalValue isInt64Literal at *
  cases hs : s.data with
  | nil => rw [hs] at h; simp [ParseInt.chars] at h
  | cons c cs =>
    rw [hs] at h hl
    rw [(ParseInt.chars_spec c cs).2 h]
    have hu : (ParseUint (unsignedPart (c :: cs))).2 = none :=
      (ParseUint_ok_iff _).mpr ⟨hl.1, hl.2.1, by
        have h63 : (2 : Nat) ^ 63 ≤ maxUint64 := by simp [maxUint64]
        have := hl.2.2
        split at this <;> omega⟩
    rw [ParseUint_val _ hu]
    simp

/-! ## The handlers -/

theorem setValue_traced {σ : Type} (cache : ICache σ) (req : Request) (st : σ)
    (log : List CacheCall) :
    (setValue cache.traced req (st, log)).1 = (setValue cache req st).1 ∧
    (setValue cache.traced req (st, log)).2.1 = (setValue cache req st).2 := by
  simp only [setValue, ICache.traced]
  split_ifs <;> exact ⟨rfl, rfl⟩

/-- C1: for a set request whose body parsed and whose `expiry` field is
non-empty and is not a base-10 signed 64-bit integer literal, or denotes a
value below 0, `setValue` answers 400 "invalid command" and leaves the store
as it was, making no call through the cache interface; for every other request
whose body parsed it calls `Set` exactly once, with the four form fields, the
expiry being 0 when the field is absent or empty and the value of the literal
otherwise.  Recording the calls changes neither the response nor the store. -/
theorem setValue_expiry_validation {σ : Type} (cache : ICache σ) (req : Request) (st : σ)
    (hform : req.ParseForm = none) :
    (req.FormValue "expiry" ≠ "" ∧
        (¬ isInt64Literal (req.FormValue "expiry") ∨ literalValue (req.FormValue "expiry") < 0) →
      setValue cache req st = (⟨400, "err", "invalid command"⟩, st) ∧
      setValue cache.traced req (st, []) = (⟨400, "err", "invalid command"⟩, (st, []))) ∧
    (¬ (req.FormValue "expiry" ≠ "" ∧
        (¬ isInt64Literal (req.FormValue "expiry") ∨ literalValue (req.FormValue "expiry") < 0)) →
      (setValue cache.traced req (st, [])).2.2 =
        [CacheCall.Set
          { key := req.FormValue "key"
            value := req.FormValue "value"
            expiry :=
              if req.FormValue "expiry" = "" then 0 else literalValue (req.FormValue "expiry")
            condition := req.FormValue "condition" }]) ∧
    (setValue cache.traced req (st, [])).1 = (setValue cache req st).1 ∧
    (setValue cache.traced req (st, [])).2.1 = (setValue cache req st).2 := by
  have hbad : ∀ {τ : Type} (c : ICache τ) (t : τ),
      req.FormValue "expiry" ≠ "" ∧
        (¬ isInt64Literal (req.FormValue "expiry") ∨ literalValue (req.FormValue "expiry") < 0) →
      setValue c req t = (⟨400, "err", "invalid command"⟩, t) := by
    intro τ c t h
    obtain ⟨hne, hor⟩ := h
    have hcond : (ParseInt (req.FormValue "expiry")).2 ≠ none ∨
        (ParseInt (req.FormValue "expiry")).1 < 0 := by
      by_cases hok : (ParseInt (req.FormValue "expiry")).2 = none
      · right
        rw [ParseInt_val _ hok]
        rcases hor with hl | hv
        · exact absurd ((ParseInt_ok_iff _).mp hok) hl
        · exact hv
      · left
        exact hok
    simp only [setValue, hform, ne_eq, not_true_eq_false, if_false, if_neg hne, hcond, if_true,
      StatusBadRequest, INVALID_REQUEST]
  refine ⟨fun h => ⟨hbad cache st h, hbad cache.traced (st, []) h⟩, ?_,
    setValue_traced cache req st []⟩
  intro h
  by_cases hempty : req.FormValue "expiry" = ""
  · simp only [setValue, hform, hempty, ICache.traced]
    simp
    split <;> rfl
  · have hlit : isInt64Literal (req.FormValue "expiry") := by
      by_contra hl
      exact h ⟨hempty, Or.inl hl⟩
    have hval : ¬ literalValue (req.FormValue "expiry") < 0 := by
      intro hv
      exact h ⟨hempty, Or.inr hv⟩
    have hok := (ParseInt_ok_iff _).mpr hlit
    have hv := ParseInt_val _ hok
    simp only [setValue, hform, ICache.traced, if_neg hempty, hok, hv]
    simp [hval]
    split <;> simp

/-- C9: for every key that is absent from the store (or holds a list with no
element), `qpop` answers 400 with the store's nil-reply message as `err`, which
is not a 200 with an empty value, and the store is unchanged. -/
theorem qpop_empty_queue (st : Store) (req : Request) (hform : req.ParseForm = none)
    (hq : st (req.FormValue "key") = none ∨ st (req.FormValue "key") = some (.list [])) :
    qpop myCache req st = (⟨400, "err", GoError.redisNil.Error⟩, st) ∧
    GoError.redisNil.Error = "redis: nil" ∧
    (qpop myCache req st).1 ≠ ⟨200, "value", ""⟩ := by
  have h : qpop myCache req st = (⟨400, "err", GoError.redisNil.Error⟩, st) := by
    rcases hq with hq | hq <;>
      simp [qpop, hform, myCache, redisCache.toICache, redisCache.Pop, Redis.client, Redis.RPop,
        hq, Cmd.Val, Cmd.Err, StatusBadRequest]
  refine ⟨h, rfl, ?_⟩
  rw [h]
  intro hh
  have h4 : (400 : Nat) = 200 := congrArg Response.status hh
  exact absurd h4 (by decide)

/-- C10: for every key whose queue holds exactly one element `x`, `Pop` returns
`x` together with the nil-reply error of its second primitive call, so `qpop`
answers 400 with that error message, `x` is not in the response, and the key
is gone from the store afterwards. -/
theorem qpop_single_element_lost (st : Store) (req : Request) (x : String)
    (hform : req.ParseForm = none)
    (hq : st (req.FormValue "key") = some (.list [x])) :
    (redisCache.Pop Redis.client (req.FormValue "key") st).1 = (x, some .redisNil) ∧
    (qpop myCache req st).1 = ⟨400, "err", GoError.redisNil.Error⟩ ∧
    (qpop myCache req st).2 (req.FormValue "key") = none ∧
    (qpop myCache req st).2.queue (req.FormValue "key") = [] := by
  simp [qpop, hform, myCache, redisCache.toICache, redisCache.Pop, Redis.client, Redis.RPop,
    hq, Cmd.Val, Cmd.Err, StatusBadRequest, Store.update, Store.queue]

/-- C3: the response of `getValue` to a request whose body parsed follows the
store lookup.  Over any client: the nil reply (`redis.Nil`, which
`redisCache.Get` turns into `(nil, nil)`) gives 400 "Key not found", any other
error gives 500 "try again", and a value `b`, the empty one included, gives
200 with `b`; the handler sends the store the one command `GET key`.  Over
the Redis store: a key that is absent gives 400 "Key not found", a key holding
the string `b` gives 200 with `b`, and the store is never changed. -/
theorem getValue_response {σ : Type} (client : RedisClient σ) (req : Request) (st : σ)
    (st0 : Store) (hform : req.ParseForm = none) :
    ((client.Get (req.FormValue "key") st).1.err = some .redisNil →
      (redisCache.Get client (req.FormValue "key") st).1 = (none, none) ∧
      getValue (redisCache.toICache client) req st =
        (⟨400, "err", "Key not found"⟩, (client.Get (req.FormValue "key") st).2)) ∧
    (∀ msg, (client.Get (req.FormValue "key") st).1.err = some (.other msg) →
      getValue (redisCache.toICache client) req st =
        (⟨500, "err", "try again"⟩, (client.Get (req.FormValue "key") st).2)) ∧
    ((client.Get (req.FormValue "key") st).1.err = none →
      getValue (redisCache.toICache client) req st =
        (⟨200, "value", (client.Get (req.FormValue "key") st).1.val⟩,
          (client.Get (req.FormValue "key") st).2)) ∧
    (getValue (redisCache.toICache client.traced) req (st, [])).2.2 =
      [RedisCall.Get (req.FormValue "key")] ∧
    (st0 (req.FormValue "key") = none →
      getValue myCache req st0 = (⟨400, "err", "Key not found"⟩, st0)) ∧
    (∀ b ttl, st0 (req.FormValue "key") = some (.str b ttl) →
      getValue myCache req st0 = (⟨200, "value", b⟩, st0)) ∧
    (getValue myCache req st0).2 = st0 := by
  refine ⟨?_, ?_, ?_, ?_, ?_, ?_, ?_⟩
  · intro h
    simp [getValue, hform, redisCache.toICache, redisCache.Get, Cmd.Bytes, h, StatusBadRequest]
  · intro msg h
    simp [getValue, hform, redisCache.toICache, redisCache.Get, Cmd.Bytes, h,
      StatusInternalServerError, TRY_AGAIN]
  · intro h
    simp [getValue, hform, redisCache.toICache, redisCache.Get, Cmd.Bytes, h, StatusOK]
  · simp only [getValue, hform, redisCache.toICache, redisCache.Get, RedisClient.traced,
      Cmd.Bytes, ne_eq, not_true_eq_false, if_false]
    split_ifs <;> simp
  · intro h
    simp [getValue, hform, myCache, redisCache.toICache, redisCache.Get, Redis.client, Redis.Get,
      Cmd.Bytes, h, StatusBadRequest]
  · intro b ttl h
    simp [getValue, hform, myCache, redisCache.toICache, redisCache.Get, Redis.client, Redis.Get,
      Cmd.Bytes, h, StatusOK]
  · rcases h : st0 (req.FormValue "key") with _ | e
    · simp [getValue, hform, myCache, redisCache.toICache, redisCache.Get, Redis.client,
        Redis.Get, Cmd.Bytes, h]
    · cases e <;>
        simp [getValue, hform, myCache, redisCache.toICache, redisCache.Get, Redis.client,
          Redis.Get, Cmd.Bytes, h, WRONGTYPE]

/-- C8, as amended: over any client, `Pop` sends the pop command twice and
returns the value of the first call with the error of the second; over the
Redis store, for every key whose queue holds `n >= 2` elements, the first call
removes the last element `x1`, the second removes the next one `x2`, `Pop`
returns `x1` with a nil error, `x2` is not returned to the caller, and `n - 2`
elements are left. -/
theorem Pop_pops_twice {σ : Type} (client : RedisClient σ) (st : σ) (st0 : Store)
    (key : String) (xs : List String)
    (hq : st0 key = some (.list xs)) (hn : 2 ≤ xs.length) :
    redisCache.Pop client key st =
      (((client.RPop key st).1.val, (client.RPop key (client.RPop key st).2).1.err),
        (client.RPop key (client.RPop key st).2).2) ∧
    (redisCache.Pop client.traced key (st, [])).2.2 = [RedisCall.RPop key, RedisCall.RPop key] ∧
    ∃ x1 x2 st1 st2,
      Redis.RPop key st0 = (⟨x1, none⟩, st1) ∧
      Redis.RPop key st1 = (⟨x2, none⟩, st2) ∧
      redisCache.Pop Redis.client key st0 = ((x1, none), st2) ∧
      xs = st2.queue key ++ [x2, x1] ∧
      (st2.queue key).length = xs.length - 2 := by
  refine ⟨rfl, by simp [redisCache.Pop, RedisClient.traced], ?_⟩
  obtain ⟨ys, x1, rfl⟩ : ∃ ys x1, xs = ys ++ [x1] := by
    rcases List.eq_nil_or_concat xs with h | ⟨ys, x1, h⟩
    · subst h; simp at hn
    · exact ⟨ys, x1, by simpa using h⟩
  obtain ⟨zs, x2, rfl⟩ : ∃ zs x2, ys = zs ++ [x2] := by
    rcases List.eq_nil_or_concat ys with h | ⟨zs, x2, h⟩
    · subst h; simp at hn
    · exact ⟨zs, x2, by simpa using h⟩
  have h1 : Redis.RPop key st0 =
      (⟨x1, none⟩, st0.update key (some (.list (zs ++ [x2])))) := by
    simp [Redis.RPop, hq]
  have h2 : Redis.RPop key (st0.update key (some (.list (zs ++ [x2])))) =
      (⟨x2, none⟩, (st0.update key (some (.list (zs ++ [x2])))).update key
        (if zs = [] then none else some (.list zs))) := by
    simp [Redis.RPop, Store.update]
  refine ⟨x1, x2, _, _, h1, h2, ?_, ?_, ?_⟩
  · simp [redisCache.Pop, Redis.client, h1, h2, Cmd.Val, Cmd.Err]
  · by_cases hz : zs = []
    · simp [Store.queue, Store.update, hz]
    · simp [Store.queue, Store.update, hz]
  · by_cases hz : zs = []
    · simp [Store.queue, Store.update, hz]
    · simp [Store.queue, Store.update, hz]

/-- C8, the claim as written fails: on the queue `a, b` the first primitive
call removes `b` and the second removes `a`; `Pop` returns `b`, the element of
the first call, not the element of the second. -/
theorem Pop_returns_first_not_second :
    (Redis.RPop "q" (Store.empty.update "q" (some (.list ["a", "b"])))).1 = ⟨"b", none⟩ ∧
    (Redis.RPop "q"
      (Redis.RPop "q" (Store.empty.update "q" (some (.list ["a", "b"])))).2).1 = ⟨"a", none⟩ ∧
    (redisCache.Pop Redis.client "q"
      (Store.empty.update "q" (some (.list ["a", "b"])))).1 = ("b", none) ∧
    (redisCache.Pop Redis.client "q"
      (Store.empty.update "q" (some (.list ["a", "b"])))).1 ≠ ("a", none) := by
  decide

/-- The conversion at a few expiries: below `10^9` the duration is 0; at
`5 * 10^9` it is 5 nanoseconds; and from 16777216999999999 on the float64 sum
rounds up to the next whole second. -/
theorem secondsDuration_values :
    secondsDuration 0 = 0 ∧
    secondsDuration 5 = 0 ∧
    secondsDuration 999999999 = 0 ∧
    secondsDuration 1000000000 = 1 ∧
    secondsDuration 5000000000 = 5 ∧
    secondsDuration 16777215999999999 = 16777215 ∧
    secondsDuration 16777216999999999 = 16777217 ∧
    secondsDuration 9223372036854775807 = 9223372036 := by
  refine ⟨?_, ?_, ?_, ?_, ?_, ?_, ?_, ?_⟩ <;> set_option maxRecDepth 4096 in decide

/-- The expiry option the client sends: a duration below one millisecond is
`PX 0`, which the server refuses; one millisecond is `PX 1`; two seconds is
`EX 2`. -/
theorem expireMillis_values :
    Redis.expireMillis 5 = 0 ∧
    Redis.expireMillis 999999 = 0 ∧
    Redis.expireMillis 1000000 = 1 ∧
    Redis.expireMillis 2000000000 = 2000 := by
  decide

theorem secondsDuration_nonneg (e : Int) (h : 0 ≤ e) : 0 ≤ secondsDuration e := by
  simp only [secondsDuration, not_lt.mpr h, if_false]
  exact Int.natCast_nonneg _

theorem setValue_of_valid {σ : Type} (cache : ICache σ) (req : Request) (st : σ)
    (hform : req.ParseForm = none)
    (hexp : req.FormValue "expiry" = "" ∨
      (isInt64Literal (req.FormValue "expiry") ∧ 0 ≤ literalValue (req.FormValue "expiry"))) :
    0 ≤ requestExpiry req ∧
      setValue cache req st =
        (if (cache.Set ⟨req.FormValue "key", req.FormValue "value", requestExpiry req,
              req.FormValue "condition"⟩ st).1 ≠ none
          then ⟨500, "err", "try again"⟩
          else ⟨200, "value", "command successfully executed"⟩,
         (cache.Set ⟨req.FormValue "key", req.FormValue "value", requestExpiry req,
              req.FormValue "condition"⟩ st).2) := by
  rcases hexp with hempty | ⟨hlit, hval⟩
  · refine ⟨by simp [requestExpiry, hempty], ?_⟩
    simp only [setValue, hform, hempty, requestExpiry]
    simp only [ne_eq, not_true_eq_false, if_false, if_true, lt_self_iff_false, or_self]
    split <;> rfl
  · have hok := (ParseInt_ok_iff _).mpr hlit
    have hv := ParseInt_val _ hok
    have hne : req.FormValue "expiry" ≠ "" := by
      intro h0
      rw [h0] at hlit
      exact absurd hlit (by decide)
    refine ⟨by simpa [requestExpiry, hne] using hval, ?_⟩
    simp only [setValue, hform, if_neg hne, hok, hv, requestExpiry]
    simp only [ne_eq, not_true_eq_false, if_false, not_lt.mpr hval, or_self]
    split <;> rfl

/-- The part of C2 that holds on the code: over the Redis store, for a set
request whose body parsed, with an expiry that is absent or a literal `>= 0`
whose converted duration the store accepts (it is 0, or its expiry option is
positive) and a condition among "", "NX", "XX", `setValue` answers 200 and a
`getValue` on the same key right after returns the value written; with "NX" on
a key already present the store is unchanged, and with "XX" on an absent key
the store is unchanged and get answers 400 "Key not found". -/
theorem set_then_get_of_accepted_duration (st : Store) (req greq : Request)
    (hform : req.ParseForm = none) (hgform : greq.ParseForm = none)
    (hkey : greq.FormValue "key" = req.FormValue "key")
    (hexp : req.FormValue "expiry" = "" ∨
      (isInt64Literal (req.FormValue "expiry") ∧ 0 ≤ literalValue (req.FormValue "expiry")))
    (hdur : secondsDuration (requestExpiry req) = 0 ∨
      0 < Redis.expireMillis (secondsDuration (requestExpiry req)))
    (hcond : req.FormValue "condition" = "" ∨ req.FormValue "condition" = "NX" ∨
      req.FormValue "condition" = "XX") :
    (setValue myCache req st).1 = ⟨200, "value", "command successfully executed"⟩ ∧
    ((req.FormValue "condition" = "" ∨
        (req.FormValue "condition" = "NX" ∧ st (req.FormValue "key") = none) ∨
        (req.FormValue "condition" = "XX" ∧ st (req.FormValue "key") ≠ none)) →
      (getValue myCache greq (setValue myCache req st).2).1 =
        ⟨200, "value", req.FormValue "value"⟩) ∧
    ((req.FormValue "condition" = "NX" ∧ st (req.FormValue "key") ≠ none) →
      (setValue myCache req st).2 = st ∧
      ∀ v0 ttl, st (req.FormValue "key") = some (.str v0 ttl) →
        (getValue myCache greq (setValue myCache req st).2).1 = ⟨200, "value", v0⟩) ∧
    ((req.FormValue "condition" = "XX" ∧ st (req.FormValue "key") = none) →
      (setValue myCache req st).2 = st ∧
      (getValue myCache greq (setValue myCache req st).2).1 =
        ⟨400, "err", "Key not found"⟩) := by
  obtain ⟨he, hset⟩ := setValue_of_valid myCache req st hform hexp
  have hd := secondsDuration_nonneg _ he
  rw [hset]
  have hsplit : secondsDuration (requestExpiry req) = 0 ∨
      (0 < secondsDuration (requestExpiry req) ∧ secondsDuration (requestExpiry req) ≠ 0 ∧
        ¬ Redis.expireMillis (secondsDuration (requestExpiry req)) ≤ 0) := by
    rcases hdur with h0 | hpos
    · exact Or.inl h0
    · by_cases h0 : secondsDuration (requestExpiry req) = 0
      · exact Or.inl h0
      · exact Or.inr ⟨lt_of_le_of_ne hd (Ne.symm h0), h0, not_le.mpr hpos⟩
  rcases hcond with hc | hc | hc
  · rcases hsplit with h0 | ⟨h1, h2, h3⟩
    · simp [hc, h0, getValue, hgform, hkey, myCache, redisCache.toICache, redisCache.Set,
        redisCache.Get, Redis.client, Redis.Set, Redis.Get, Cmd.Bytes, Cmd.Err, Store.update,
        StatusOK]
    · simp [hc, h1, h3, getValue, hgform, hkey, myCache, redisCache.toICache, redisCache.Set,
        redisCache.Get, Redis.client, Redis.Set, Redis.Get, Cmd.Bytes, Cmd.Err, Store.update,
        StatusOK]
  · rcases hs : st (req.FormValue "key") with _ | en
    · rcases hsplit with h0 | ⟨h1, h2, h3⟩
      · simp [hc, hs, h0, getValue, hgform, hkey, myCache, redisCache.toICache,
          redisCache.Set, redisCache.Get, Redis.client, Redis.SetNX, Redis.Get, Cmd.Bytes,
          Cmd.Err, Store.update, StatusOK]
      · simp [hc, hs, h2, h3, getValue, hgform, hkey, myCache, redisCache.toICache,
          redisCache.Set, redisCache.Get, Redis.client, Redis.SetNX, Redis.Get, Cmd.Bytes,
          Cmd.Err, Store.update, StatusOK]
    · rcases hsplit with h0 | ⟨h1, h2, h3⟩
      · simp [hc, hs, h0, getValue, hgform, hkey, myCache, redisCache.toICache,
          redisCache.Set, redisCache.Get, Redis.client, Redis.SetNX, Redis.Get, Cmd.Bytes,
          Cmd.Err, Store.update, StatusOK]
        intro v0 ttl hen
        subst hen
        simp
      · simp [hc, hs, h2, h3, getValue, hgform, hkey, myCache, redisCache.toICache,
          redisCache.Set, redisCache.Get, Redis.client, Redis.SetNX, Redis.Get, Cmd.Bytes,
          Cmd.Err, Store.update, StatusOK]
        intro v0 ttl hen
        subst hen
        simp
  · rcases hs : st (req.FormValue "key") with _ | en
    · rcases hsplit with h0 | ⟨h1, h2, h3⟩
      · simp [hc, hs, h0, getValue, hgform, hkey, myCache, redisCache.toICache,
          redisCache.Set, redisCache.Get, Redis.client, Redis.SetXX, Redis.Get, Cmd.Bytes,
          Cmd.Err, Store.update, StatusOK, StatusBadRequest]
      · simp [hc, hs, h2, h3, getValue, hgform, hkey, myCache, redisCache.toICache,
          redisCache.Set, redisCache.Get, Redis.client, Redis.SetXX, Redis.Get, Cmd.Bytes,
          Cmd.Err, Store.update, StatusOK, StatusBadRequest]
    · rcases hsplit with h0 | ⟨h1, h2, h3⟩
      · simp [hc, hs, h0, getValue, hgform, hkey, myCache, redisCache.toICache,
          redisCache.Set, redisCache.Get, Redis.client, Redis.SetXX, Redis.Get, Cmd.Bytes,
          Cmd.Err, Store.update, StatusOK]
      · simp [hc, hs, h2, h3, getValue, hgform, hkey, myCache, redisCache.toICache,
          redisCache.Set, redisCache.Get, Redis.client, Redis.SetXX, Redis.Get, Cmd.Bytes,
          Cmd.Err, Store.update, StatusOK]

/-- C2, what the code does: for the set request with expiry 5000000000 the
converted duration is 5 nanoseconds, which the client sends as the expiry
option `PX 0`; the store refuses it, so `setValue` answers 500 "try again"
where the claim says 200, nothing is written, and a `getValue` on the key
right after answers 400 "Key not found" where the claim says 200 with the
value.  The same holds with "NX"; with "XX" on a key holding "old" the answer
is 500 and get still returns "old". -/
theorem setValue_expiry_refused_by_store :
    (setValue (redisCache.toICache Redis.client.traced) (setRequest "k" "v" "5000000000" "")
      (Store.empty, [])).2.2 = [RedisCall.Set "k" "v" 5] ∧
    (setValue myCache (setRequest "k" "v" "5000000000" "") Store.empty).1 =
      ⟨500, "err", "try again"⟩ ∧
    (setValue myCache (setRequest "k" "v" "5000000000" "") Store.empty).2 "k" = none ∧
    (getValue myCache (keyRequest "k")
      (setValue myCache (setRequest "k" "v" "5000000000" "") Store.empty).2).1 =
      ⟨400, "err", "Key not found"⟩ ∧
    (setValue myCache (setRequest "k" "v" "5000000000" "NX") Store.empty).1 =
      ⟨500, "err", "try again"⟩ ∧
    (getValue myCache (keyRequest "k")
      (setValue myCache (setRequest "k" "v" "5000000000" "NX") Store.empty).2).1 =
      ⟨400, "err", "Key not found"⟩ ∧
    (setValue myCache (setRequest "k" "v" "5000000000" "XX")
      (Store.empty.update "k" (some (.str "old" none)))).1 = ⟨500, "err", "try again"⟩ ∧
    (getValue myCache (keyRequest "k")
      (setValue myCache (setRequest "k" "v" "5000000000" "XX")
        (Store.empty.update "k" (some (.str "old" none)))).2).1 = ⟨200, "value", "old"⟩ := by
  decide

theorem Push_eq {σ : Type} (client : RedisClient σ) (key value : String) (st : σ) :
    redisCache.Push client key value st = (client.RPush key (Split value) st).2 := by
  simp only [redisCache.Push, Push_inputs]

theorem RPush_queue (st : Store) (key : String) (values : List String) (hv : values ≠ [])
    (hs : ∀ v ttl, st key ≠ some (.str v ttl)) :
    (Redis.RPush key values st).2.queue key = st.queue key ++ values := by
  rcases h : st key with _ | en
  · simp [Redis.RPush, hv, h, Store.queue, Store.update]
  · cases en with
    | str v ttl => exact absurd h (hs v ttl)
    | list xs => simp [Redis.RPush, hv, h, Store.queue, Store.update]

/-- C4, what the code does: on an empty store, `qpush` of "a b c" answers 200,
then the first `qpop` answers 200 with "c" (removing "c" and "b"), the second
answers 400 "redis: nil" (removing "a"), and the third answers 400
"redis: nil": the elements do not come back as "a", "b", "c". -/
theorem qpush_qpop_not_fifo :
    (qpush myCache (pushRequest "q" "a b c") Store.empty).1 =
      ⟨200, "value", "command successfully executed"⟩ ∧
    (qpop myCache (keyRequest "q")
      (qpush myCache (pushRequest "q" "a b c") Store.empty).2).1 = ⟨200, "value", "c"⟩ ∧
    (qpop myCache (keyRequest "q")
      (qpop myCache (keyRequest "q")
        (qpush myCache (pushRequest "q" "a b c") Store.empty).2).2).1 =
      ⟨400, "err", "redis: nil"⟩ ∧
    (qpop myCache (keyRequest "q")
      (qpop myCache (keyRequest "q")
        (qpop myCache (keyRequest "q")
          (qpush myCache (pushRequest "q" "a b c") Store.empty).2).2).2).1 =
      ⟨400, "err", "redis: nil"⟩ := by
  decide

/-- C5, the claim as written fails: `qpush` of the value `a`, two spaces, `b`,
tab, `c` appends the three elements "a", "" and "b<tab>c", one of them empty
and one holding a tab, where the whitespace-free runs are "a", "b", "c". -/
theorem qpush_not_whitespace_split :
    (qpush (redisCache.toICache Redis.client.traced) (pushRequest "q" "a  b\tc")
      (Store.empty, [])).2.2 = [RedisCall.RPush "q" ["a", "", "b\tc"]] ∧
    (qpush myCache (pushRequest "q" "a  b\tc") Store.empty).2.queue "q" = ["a", "", "b\tc"] ∧
    whitespaceRuns "a  b\tc" = ["a", "b", "c"] ∧
    "" ∈ ["a", "", "b\tc"] ∧
    '\t' ∈ "b\tc".data := by
  decide

/-- C5, as amended: `qpush` splits its `value` field at every single space
character.  For every request whose body parsed, the handler sends the store
one append whose elements are, in order, the pieces of `value` between
consecutive spaces: no element contains a space, and joining the elements with
single spaces gives back `value`; it answers 200 "command successfully
executed".  The pieces are the maximal whitespace-free runs of `value` whenever
the space is the only whitespace character in `value` and no piece is empty;
otherwise a piece can be empty or hold a tab, as for `a`, two spaces, `b`,
tab, `c`. -/
theorem qpush_splits_on_single_spaces {σ : Type} (client : RedisClient σ) (req : Request)
    (st : σ) (hform : req.ParseForm = none) :
    (qpush (redisCache.toICache client.traced) req (st, [])).2.2 =
      [RedisCall.RPush (req.FormValue "key") (Split (req.FormValue "value"))] ∧
    (∀ e ∈ Split (req.FormValue "value"), ' ' ∉ e.data) ∧
    String.intercalate " " (Split (req.FormValue "value")) = req.FormValue "value" ∧
    (qpush (redisCache.toICache client) req st).1 =
      ⟨200, "value", "command successfully executed"⟩ ∧
    ((∀ c ∈ (req.FormValue "value").data, isWhitespace c = true → c = ' ') →
      (∀ p ∈ Split (req.FormValue "value"), p ≠ "") →
      Split (req.FormValue "value") = whitespaceRuns (req.FormValue "value")) ∧
    Split "a  b\tc" = ["a", "", "b\tc"] := by
  refine ⟨?_, Split_no_space _, Split_join _, ?_, Split_eq_whitespaceRuns _, by decide⟩
  · simp [qpush, hform, redisCache.toICache, Push_eq, RedisClient.traced]
  · simp [qpush, hform, StatusOK, SUCCESSFUL]

/-- C6: for every key and value, `Push` sends the store one `RPush` on `key`
whose elements are the pieces of `value` split at each single space: there are
(number of spaces) + 1 of them, none contains a space, and joining them with
single spaces gives back `value`.  On the Redis store, when `key` does not
hold a string, the list afterwards is the old list followed by those pieces in
order.  The empty value gives the one element ""; `a`, two spaces, `b` gives
"a", "", "b". -/
theorem Push_appends_space_pieces {σ : Type} (client : RedisClient σ) (st : σ) (st0 : Store)
    (key value : String) :
    (redisCache.Push client.traced key value (st, [])).2 = [RedisCall.RPush key (Split value)] ∧
    (Split value).length = value.data.count ' ' + 1 ∧
    (∀ p ∈ Split value, ' ' ∉ p.data) ∧
    String.intercalate " " (Split value) = value ∧
    ((∀ v ttl, st0 key ≠ some (.str v ttl)) →
      (redisCache.Push Redis.client key value st0).queue key = st0.queue key ++ Split value) ∧
    Split "" = [""] ∧
    Split "a  b" = ["a", "", "b"] := by
  refine ⟨?_, Split_length _, Split_no_space _, Split_join _, ?_, by decide, by decide⟩
  · simp [Push_eq, RedisClient.traced]
  · intro hs
    rw [Push_eq]
    exact RPush_queue st0 key (Split value) (Split_ne_nil value) hs

/-- C7, what the code does: for the input with expiry 5, in each of the three
branches, `Set` hands the store primitive the duration 0 (no expiry), not 5
seconds; the key is written without a time to live. -/
theorem Set_expiry_not_seconds :
    (redisCache.Set Redis.client.traced ⟨"k", "v", 5, ""⟩ (Store.empty, [])).2.2 =
      [RedisCall.Set "k" "v" 0] ∧
    (redisCache.Set Redis.client.traced ⟨"k", "v", 5, "NX"⟩ (Store.empty, [])).2.2 =
      [RedisCall.SetNX "k" "v" 0] ∧
    (redisCache.Set Redis.client.traced ⟨"k", "v", 5, "XX"⟩ (Store.empty, [])).2.2 =
      [RedisCall.SetXX "k" "v" 0] ∧
    secondsDuration 5 ≠ 5 * Second ∧
    (redisCache.Set Redis.client ⟨"k", "v", 5, ""⟩ Store.empty).2 "k" = some (.str "v" none) ∧
    (setValue (redisCache.toICache Redis.client.traced) (setRequest "k" "v" "5" "")
      (Store.empty, [])).2.2 = [RedisCall.Set "k" "v" 0] := by
  refine ⟨?_, ?_, ?_, ?_, ?_, ?_⟩ <;> set_option maxRecDepth 4096 in decide

/-! ## The theorems at concrete requests -/

theorem setValue_expiry_validation_witness :
    (setRequest "k" "v" "-5" "NX").ParseForm = none ∧
    setValue myCache (setRequest "k" "v" "-5" "NX") Store.empty =
      (⟨400, "err", "invalid command"⟩, Store.empty) ∧
    (setValue myCache.traced (setRequest "k" "v" "7" "XX") (Store.empty, [])).2.2 =
      [CacheCall.Set ⟨"k", "v", 7, "XX"⟩] :=
  ⟨rfl,
   ((setValue_expiry_validation myCache (setRequest "k" "v" "-5" "NX") Store.empty rfl).1
      ⟨by decide, Or.inr (by decide)⟩).1,
   ((setValue_expiry_validation myCache (setRequest "k" "v" "7" "XX") Store.empty rfl).2.1
      (by decide)).trans (by decide)⟩

theorem set_then_get_of_accepted_duration_witness :
    (setRequest "k" "v" "10" "").ParseForm = none ∧
    (keyRequest "k").ParseForm = none ∧
    (keyRequest "k").FormValue "key" = (setRequest "k" "v" "10" "").FormValue "key" ∧
    secondsDuration (requestExpiry (setRequest "k" "v" "10" "")) = 0 ∧
    (setValue myCache (setRequest "k" "v" "10" "") Store.empty).1 =
      ⟨200, "value", "command successfully executed"⟩ ∧
    (getValue myCache (keyRequest "k")
      (setValue myCache (setRequest "k" "v" "10" "") Store.empty).2).1 = ⟨200, "value", "v"⟩ :=
  have h := set_then_get_of_accepted_duration Store.empty (setRequest "k" "v" "10" "")
    (keyRequest "k") rfl rfl (by decide) (Or.inr ⟨by decide, by decide⟩) (Or.inl (by decide))
    (Or.inl (by decide))
  ⟨rfl, rfl, by decide, by decide, h.1, h.2.1 (Or.inl (by decide))⟩

theorem getValue_response_witness :
    (keyRequest "k").ParseForm = none ∧
    getValue myCache (keyRequest "k") Store.empty =
      (⟨400, "err", "Key not found"⟩, Store.empty) :=
  ⟨rfl,
   (getValue_response Redis.client (keyRequest "k") Store.empty Store.empty rfl).2.2.2.2.1 rfl⟩

theorem qpush_splits_on_single_spaces_witness :
    (pushRequest "q" "a b").ParseForm = none ∧
    (qpush (redisCache.toICache Redis.client.traced) (pushRequest "q" "a b")
      (Store.empty, [])).2.2 = [RedisCall.RPush "q" ["a", "b"]] :=
  ⟨rfl,
   (qpush_splits_on_single_spaces Redis.client (pushRequest "q" "a b") Store.empty rfl).1.trans
     (by decide)⟩

theorem Push_appends_space_pieces_witness :
    (∀ v ttl, Store.empty "q" ≠ some (Entry.str v ttl)) ∧
    (redisCache.Push Redis.client "q" "a b" Store.empty).queue "q" = ["a", "b"] :=
  ⟨fun _ _ h => by simp [Store.empty] at h,
   ((Push_appends_space_pieces Redis.client Store.empty Store.empty "q" "a b").2.2.2.2.1
      (fun _ _ h => by simp [Store.empty] at h)).trans (by decide)⟩

theorem Pop_pops_twice_witness :
    (Store.empty.update "q" (some (.list ["a", "b", "c"]))) "q" = some (.list ["a", "b", "c"]) ∧
    2 ≤ ["a", "b", "c"].length ∧
    (redisCache.Pop Redis.client.traced "q"
      (Store.empty.update "q" (some (.list ["a", "b", "c"])), [])).2.2 =
      [RedisCall.RPop "q", RedisCall.RPop "q"] :=
  ⟨by decide, by decide,
   (Pop_pops_twice Redis.client (Store.empty.update "q" (some (.list ["a", "b", "c"])))
      (Store.empty.update "q" (some (.list ["a", "b", "c"]))) "q" ["a", "b", "c"]
      (by decide) (by decide)).2.1⟩

theorem qpop_empty_queue_witness :
    (keyRequest "q").ParseForm = none ∧
    Store.empty ((keyRequest "q").FormValue "key") = none ∧
    qpop myCache (keyRequest "q") Store.empty = (⟨400, "err", "redis: nil"⟩, Store.empty) :=
  ⟨rfl, rfl, (qpop_empty_queue Store.empty (keyRequest "q") rfl (Or.inl rfl)).1⟩

theorem qpop_single_element_lost_witness :
    (keyRequest "q").ParseForm = none ∧
    (Store.empty.update "q" (some (.list ["x"]))) ((keyRequest "q").FormValue "key") =
      some (.list ["x"]) ∧
    (qpop myCache (keyRequest "q") (Store.empty.update "q" (some (.list ["x"])))).1 =
      ⟨400, "err", "redis: nil"⟩ ∧
    (qpop myCache (keyRequest "q") (Store.empty.update "q" (some (.list ["x"])))).2 "q" = none :=
  have h := qpop_single_element_lost (Store.empty.update "q" (some (.list ["x"])))
    (keyRequest "q") "x" rfl (by decide)
  ⟨rfl, by decide, h.2.1, h.2.2.1⟩

end InMemoryDB
